import Mathlib

/-!
Verification development for the BloomsBot question-paper generator.

The Python sources (blooms_classifier.py, question_generator.py,
paper_generator.py, database.py, app.py) are shallowly embedded below:
pure functions become Lean functions, dictionaries become association
lists preserving insertion order, Python floats become exact rationals
(no comparison in the code sits on a binary-rounding boundary), the
bounded while-loop of the assembler becomes fuel-indexed structural
recursion with the fuel playing the role of the 1000-attempt cap, and
the random shuffle of the relaxed fallback becomes an explicit list
parameter constrained to be a permutation of the pool where needed.
-/

namespace BloomsBot

/-- Row of the questions table (database.py): id, unit, question text,
marks, bloom_level and difficulty, as carried through the generator. -/
structure Question where
  id : Nat
  unit : String
  text : String
  marks : Int
  bloom_level : String
  difficulty : String
deriving DecidableEq

/-- Python dict lookup on an insertion-ordered association list. -/
def lookupD {α : Type} (m : List (String × α)) (k : String) : Option α :=
  (m.find? (fun p => p.1 == k)).map (fun p => p.2)

/-- Python membership test k in d. -/
def memD {α : Type} (m : List (String × α)) (k : String) : Bool :=
  m.any (fun p => p.1 == k)

/-- Python in-place update d[k] = f d[k]; keys are unique so mapping
over all matching entries coincides with updating the single entry. -/
def updD {α : Type} (m : List (String × α)) (k : String) (f : α → α) : List (String × α) :=
  m.map (fun p => if p.1 == k then (p.1, f p.2) else p)

/-! ## blooms_classifier.py : difficulty -/

/-- Table bloom_difficulty of determine_difficulty (blooms_classifier.py
lines 152-159). -/
def bloom_difficulty : List (String × Int) :=
  [("Remember", 1), ("Understand", 2), ("Apply", 3),
   ("Analyze", 4), ("Evaluate", 5), ("Create", 6)]

/-- Embedding of determine_difficulty (blooms_classifier.py lines 140-180):
weighted average of the bloom ordinal (dict get with default 2) and the
marks tier, thresholded at 2.5 and 4.5.  The float constants 0.6, 0.4,
2.5, 4.5 are represented exactly in the rationals; no reachable combined
score lies within float-rounding distance of a threshold. -/
def determine_difficulty (bloom_level : String) (marks : Int) : String :=
  let bloom_score : Int := (lookupD bloom_difficulty bloom_level).getD 2
  let marks_score : Int := if marks ≤ 2 then 1 else if marks ≤ 5 then 2 else 3
  let combined_score : ℚ := (bloom_score : ℚ) * (6/10) + (marks_score : ℚ) * (4/10)
  if combined_score ≤ 5/2 then "Easy"
  else if combined_score ≤ 9/2 then "Medium"
  else "Hard"

/-- Fixed enum order of Bloom levels, the insertion order of the
BLOOM_KEYWORDS dict (blooms_classifier.py lines 10-41). -/
def bloomOrderL : List String :=
  ["Remember", "Understand", "Apply", "Analyze", "Evaluate", "Create"]

/-- Enum of the six Bloom levels in their fixed order, used on the
specification side of the claims. -/
inductive BloomLevel
  | Remember | Understand | Apply | Analyze | Evaluate | Create
deriving DecidableEq

/-- String name of a Bloom level, as the code stores it. -/
def bloomName : BloomLevel → String
  | .Remember => "Remember"
  | .Understand => "Understand"
  | .Apply => "Apply"
  | .Analyze => "Analyze"
  | .Evaluate => "Evaluate"
  | .Create => "Create"

/-- Specification-side bloom ordinal weight from the claim's words:
Remember=1 .. Create=6. -/
def bloom_weight_spec : BloomLevel → ℚ
  | .Remember => 1
  | .Understand => 2
  | .Apply => 3
  | .Analyze => 4
  | .Evaluate => 5
  | .Create => 6

/-- Specification-side marks tier from the claim's words: marks ≤ 2 gives
tier 1, marks ≤ 5 gives tier 2, else tier 3. -/
def marks_tier_spec (m : Int) : ℚ :=
  if m ≤ 2 then 1 else if m ≤ 5 then 2 else 3

/-- Specification-side difficulty mapping, written from the claim's words:
combined = 0.6 x bloom weight + 0.4 x marks tier, then combined ≤ 2.5 is
Easy, ≤ 4.5 is Medium, else Hard. -/
def difficulty_spec (b : BloomLevel) (m : Int) : String :=
  let combined : ℚ := (6/10) * bloom_weight_spec b + (4/10) * marks_tier_spec m
  if combined ≤ 5/2 then "Easy"
  else if combined ≤ 9/2 then "Medium"
  else "Hard"

/-! ## blooms_classifier.py : Bloom level from keywords

Texts are embedded as lists of characters.  Python's regex search
for a whole-word occurrence (the backslash-b word boundary around an
escaped keyword, blooms_classifier.py line 85) is embedded as a scan
over every split of the text: the keyword occurs with a non-word
character (or an end of the text) on each side.  All keywords start and
end with letters, for which the word-boundary assertion is exactly that
condition. -/

/-- Word character of the regex backslash-w class (ASCII scope). -/
def isWordChar (c : Char) : Bool := c.isAlphanum || c == '_'

/-- Whitespace of the regex backslash-s class (ASCII scope). -/
def isSpaceChar (c : Char) : Bool :=
  c == ' ' || c == '\t' || c == '\n' || c == '\r' || c == '\x0c' || c == '\x0b'

/-- Boundary on the left of a match position: start of text or a
non-word character before it. -/
def prevBoundaryOk : Option Char → Bool
  | none => true
  | some c => !isWordChar c

/-- Boundary on the right of a match: end of text or a non-word
character next. -/
def boundaryOkAfter : List Char → Bool
  | [] => true
  | c :: _ => !isWordChar c

/-- Whole-word occurrence of kw somewhere in s, where prior is the
character just before s (none at the start of the text). -/
def wordOccursFrom (kw : List Char) (prior : Option Char) : List Char → Bool
  | [] => prevBoundaryOk prior && kw.isPrefixOf [] && boundaryOkAfter []
  | c :: rest =>
    (prevBoundaryOk prior && kw.isPrefixOf (c :: rest) &&
      boundaryOkAfter ((c :: rest).drop kw.length)) ||
    wordOccursFrom kw (some c) rest

/-- Whole-word occurrence of kw in s (regex search of the escaped
keyword between two word boundaries). -/
def wordOccurs (kw s : List Char) : Bool := wordOccursFrom kw none s

/-- Lowercasing of a text, Python str.lower in ASCII scope. -/
def lowerText (s : List Char) : List Char := s.map Char.toLower

/-- Keyword table BLOOM_KEYWORDS (blooms_classifier.py lines 10-41),
in dict insertion order. -/
def BLOOM_KEYWORDS : List (String × List String) :=
  [("Remember",
    ["define", "list", "state", "identify", "name", "label", "recall",
     "recognize", "select", "what is", "who", "when", "where", "match",
     "choose", "find", "show", "spell", "tell", "write"]),
   ("Understand",
    ["explain", "describe", "summarize", "discuss", "interpret", "paraphrase",
     "illustrate", "classify", "compare", "translate", "outline", "review",
     "restate", "express", "locate", "report", "recognize", "give example"]),
   ("Apply",
    ["apply", "demonstrate", "use", "implement", "solve", "show", "execute",
     "construct", "compute", "modify", "operate", "prepare", "produce",
     "relate", "develop", "organize", "utilize", "sketch", "calculate"]),
   ("Analyze",
    ["analyze", "examine", "compare", "contrast", "distinguish", "differentiate",
     "investigate", "categorize", "breakdown", "separate", "infer", "arrange",
     "classify", "order", "connect", "divide", "select", "survey", "inspect"]),
   ("Evaluate",
    ["evaluate", "assess", "judge", "critique", "justify", "argue", "defend",
     "support", "rate", "prioritize", "recommend", "conclude", "predict",
     "criticize", "weigh", "measure", "validate", "prove", "disprove"]),
   ("Create",
    ["create", "design", "develop", "construct", "plan", "produce", "invent",
     "formulate", "propose", "compose", "generate", "derive", "modify",
     "assemble", "set up", "devise", "imagine", "integrate", "synthesize"])]

/-- Keyword-match count of one level against the lowercased question
text; each keyword contributes at most 1, as re.search tests presence. -/
def bloom_score (t : List Char) (level : String) : Nat :=
  ((lookupD BLOOM_KEYWORDS level).getD []).countP
    (fun kw => wordOccurs kw.toList (lowerText t))

/-- Substring containment, the Python in operator on strings. -/
def containsSub (needle : List Char) : List Char → Bool
  | [] => needle.isPrefixOf []
  | c :: rest => needle.isPrefixOf (c :: rest) || containsSub needle (c :: rest).tail

/-- Test that s begins with the word w followed by one whitespace
character, the anchored regex match of w then backslash-s. -/
def startsThenSpace (w : String) (s : List Char) : Bool :=
  w.toList.isPrefixOf s &&
    (match s.drop w.toList.length with
     | c :: _ => isSpaceChar c
     | [] => false)

/-- Embedding of classify_by_heuristics (blooms_classifier.py lines
96-137), the zero-match fallback cascade. -/
def classify_by_heuristics (t : List Char) : String :=
  let lower := lowerText t
  if startsThenSpace "what" lower || startsThenSpace "who" lower ||
     startsThenSpace "when" lower || startsThenSpace "where" lower then "Remember"
  else if startsThenSpace "how" lower then
    (if containsSub "work".toList lower || containsSub "implement".toList lower
     then "Apply" else "Understand")
  else if startsThenSpace "why" lower then
    (if t.length > 100 then "Analyze" else "Understand")
  else if containsSub "explain".toList lower || containsSub "describe".toList lower then
    "Understand"
  else if containsSub "compare".toList lower || containsSub "contrast".toList lower ||
          containsSub "difference".toList lower then "Analyze"
  else if containsSub "design".toList lower || containsSub "create".toList lower ||
          containsSub "develop".toList lower then "Create"
  else "Understand"

/-- First maximum of f over best :: rest, replacing the running best only
on a strictly greater value: the behaviour of Python max(dict, key=get)
over the insertion-ordered keys. -/
def pickMax (f : String → Nat) : String → List String → String
  | best, [] => best
  | best, l :: rest => if f l > f best then pickMax f l rest else pickMax f best rest

/-- Embedding of determine_bloom_level (blooms_classifier.py lines
67-93): per-level whole-word keyword counts over the lowercased text;
if every count is zero fall back to the heuristics, else take the first
level with the maximal count in dict insertion order. -/
def determine_bloom_level (t : List Char) : String :=
  if bloomOrderL.all (fun l => bloom_score t l == 0) then classify_by_heuristics t
  else pickMax (bloom_score t) "Remember"
    ["Understand", "Apply", "Analyze", "Evaluate", "Create"]

/-! ## paper_generator.py : the assembler

The database pool is passed explicitly; the relaxed fallback's random
shuffle becomes an explicit list parameter, constrained to be a
permutation of the pool where a theorem needs that fact.  The while loop
of generate_paper runs at most max_attempts = 1000 iterations with
attempts incremented at the top of each iteration, so it is embedded as
structural recursion on a fuel that starts at 1000 and stays equal to
1000 - attempts. -/

/-- Embedding of organize_questions (paper_generator.py lines 80-92):
group the pool by (unit, marks, bloom_level) in insertion order. -/
def organize_questions (questions : List Question) :
    List ((String × Int × String) × List Question) :=
  questions.foldl
    (fun organized q =>
      let key := (q.unit, q.marks, q.bloom_level)
      if organized.any (fun p => p.1 == key) then
        organized.map (fun p => if p.1 == key then (p.1, p.2 ++ [q]) else p)
      else organized ++ [(key, [q])])
    []

/-- Iteration order of the grouped dict: all groups in key insertion
order, each group in pool order. -/
def flattenOrganized (organized : List ((String × Int × String) × List Question)) :
    List Question :=
  organized.foldl (fun acc p => acc ++ p.2) []

/-- Embedding of calculate_fitness_score (paper_generator.py lines
125-148) over exact rationals.  Python would raise ZeroDivisionError
when remaining_marks = 0; the loop guard keeps remaining_marks > 0 on
every call reachable from generate_paper, and rational division by zero
in Lean returns 0. -/
def calculate_fitness_score (question : Question)
    (unit_distribution : List (String × Int)) (bloom_targets : List (String × ℚ))
    (remaining_marks : Int) : ℚ :=
  let s1 : ℚ :=
    match lookupD unit_distribution question.unit with
    | some unit_need =>
      if unit_need > 0 then min 10 ((unit_need : ℚ) / (question.marks : ℚ)) else 0
    | none => 0
  let s2 : ℚ :=
    match lookupD bloom_targets question.bloom_level with
    | some bloom_need =>
      if bloom_need > 0 then min 10 (bloom_need / (question.marks : ℚ)) else 0
    | none => 0
  let mark_fit : ℚ :=
    1 - (|(remaining_marks : ℚ) - (question.marks : ℚ)| / (remaining_marks : ℚ))
  s1 + s2 + mark_fit * 2

/-- First scored candidate with the strictly greatest score: the result
of Python's stable descending sort by score followed by taking index 0. -/
def pickBest : List (ℚ × Question) → Option (ℚ × Question)
  | [] => none
  | p :: rest =>
    match pickBest rest with
    | none => some p
    | some b => if b.1 > p.1 then some b else some p

/-- Embedding of find_best_candidate (paper_generator.py lines 95-122):
filter out already selected ids and questions over the remaining budget,
score the rest, return the best scored candidate.  The remaining_count
parameter is accepted and unused, exactly as in the code. -/
def find_best_candidate (questions_by_criteria : List ((String × Int × String) × List Question))
    (selected : List Question) (remaining_marks : Int)
    (unit_distribution : List (String × Int)) (bloom_targets : List (String × ℚ))
    (remaining_count : Int) : Option Question :=
  let selected_ids := selected.map (fun q => q.id)
  let candidates := (flattenOrganized questions_by_criteria).filter
    (fun q => !(selected_ids.contains q.id) && !(q.marks > remaining_marks))
  (pickBest (candidates.map
    (fun q => (calculate_fitness_score q unit_distribution bloom_targets remaining_marks, q)))).map
    (fun p => p.2)

/-- Mutable state of the selection loop in generate_paper: the selected
list, the remaining marks, the attempt counter, the caller's
unit_distribution dict (mutated in place), the derived bloom_targets
dict (mutated in place) and the caller's bloom_distribution dict, which
the loop never writes. -/
structure GenState where
  selected : List Question
  remaining_marks : Int
  attempts : Nat
  unit_distribution : List (String × Int)
  bloom_targets : List (String × ℚ)
  bloom_distribution : List (String × Int)
deriving DecidableEq

/-- One-while-loop embedding of generate_paper lines 46-70: as long as
fewer than num_questions are selected, marks remain and attempts < 1000
(fuel > 0), increment attempts, pick the best candidate, and either
select it (appending it, deducting its marks, and decrementing the
unit_distribution and bloom_targets entries that exist) or break. -/
def gen_loop (organized : List ((String × Int × String) × List Question))
    (num_questions : Int) : Nat → GenState → GenState
  | 0, s => s
  | fuel + 1, s =>
    if (s.selected.length : Int) < num_questions ∧ s.remaining_marks > 0 then
      match find_best_candidate organized s.selected s.remaining_marks
          s.unit_distribution s.bloom_targets (num_questions - s.selected.length) with
      | some candidate =>
        gen_loop organized num_questions fuel
          { selected := s.selected ++ [candidate]
            remaining_marks := s.remaining_marks - candidate.marks
            attempts := s.attempts + 1
            unit_distribution :=
              if memD s.unit_distribution candidate.unit then
                updD s.unit_distribution candidate.unit (fun v => v - candidate.marks)
              else s.unit_distribution
            bloom_targets :=
              if memD s.bloom_targets candidate.bloom_level then
                updD s.bloom_targets candidate.bloom_level (fun v => v - (candidate.marks : ℚ))
              else s.bloom_targets
            bloom_distribution := s.bloom_distribution }
      | none => { s with attempts := s.attempts + 1 }
    else s

/-- Bloom targets derived from the percentage map (generate_paper lines
32-34): target marks per level = percentage / 100 x total_marks. -/
def bloom_targets_init (bloom_distribution : List (String × Int)) (total_marks : Int) :
    List (String × ℚ) :=
  bloom_distribution.map (fun p => (p.1, ((p.2 : ℚ) / 100) * (total_marks : ℚ)))

/-- State of the primary greedy strategy after its loop has run. -/
def primary_state (pool : List Question) (total_marks num_questions : Int)
    (unit_distribution bloom_distribution : List (String × Int)) : GenState :=
  gen_loop (organize_questions pool) num_questions 1000
    { selected := []
      remaining_marks := total_marks
      attempts := 0
      unit_distribution := unit_distribution
      bloom_targets := bloom_targets_init bloom_distribution total_marks
      bloom_distribution := bloom_distribution }

/-- One acceptance step of the relaxed fallback loop (lines 165-170):
skip once the target count is reached, accept when the running total
plus the candidate's marks stays within 1.1 x target_marks. -/
def relaxed_step (target_marks target_count : Int)
    (acc : List Question × Int) (q : Question) : List Question × Int :=
  if (acc.1.length : Int) ≥ target_count then acc
  else if ((acc.2 : ℚ) + (q.marks : ℚ)) ≤ (target_marks : ℚ) * (11/10) then
    (acc.1 ++ [q], acc.2 + q.marks)
  else acc

/-- Selection of the relaxed fallback over the shuffled pool. -/
def relaxed_select (shuffled : List Question) (target_marks target_count : Int) :
    List Question :=
  (shuffled.foldl (relaxed_step target_marks target_count) ([], 0)).1

/-- Embedding of generate_paper_relaxed (paper_generator.py lines
151-172) with the shuffled pool passed explicitly (the sorted copy the
code builds on line 156 is never used and is omitted): greedily accept,
then return the selection only when it has at least 3 questions. -/
def generate_paper_relaxed (shuffled : List Question) (target_marks target_count : Int) :
    Option (List Question) :=
  let selected := relaxed_select shuffled target_marks target_count
  if selected.length ≥ 3 then some selected else none

/-- Embedding of generate_paper (paper_generator.py lines 12-77): empty
pool gives no paper; otherwise run the primary greedy loop, accept its
selection when it has at least max(3, 0.7 x num_questions) questions,
else fall back to the relaxed strategy on the full (shuffled) pool. -/
def generate_paper (pool : List Question) (total_marks num_questions : Int)
    (unit_distribution bloom_distribution : List (String × Int))
    (shuffled : List Question) : Option (List Question) :=
  if pool.isEmpty then none
  else if (((primary_state pool total_marks num_questions unit_distribution
        bloom_distribution).selected.length : ℚ) ≥
      max 3 ((num_questions : ℚ) * (7/10))) then
    some (primary_state pool total_marks num_questions unit_distribution
      bloom_distribution).selected
  else generate_paper_relaxed shuffled total_marks num_questions

/-- Budget soundness: each selected question's marks fit within the
budget remaining at its selection, the total minus the marks of the
questions taken before it. -/
def budget_ok (T : Int) (sel : List Question) : Prop :=
  ∀ i (h : i < sel.length),
    (sel.get ⟨i, h⟩).marks ≤ T - ((sel.take i).map (fun q => q.marks)).sum

/-- Every nonempty prefix of the selection keeps its total within the
relaxed fallback's tolerance 1.1 x target marks. -/
def prefix_sums_ok (T : Int) (sel : List Question) : Prop :=
  ∀ k, k < sel.length →
    ((((sel.take (k+1)).map (fun q => q.marks)).sum : Int) : ℚ) ≤ (T : ℚ) * (11/10)

/-! ## question_generator.py : extract_key_concepts

The three regex scans of extract_key_concepts (lines 101-145) are
embedded as left-to-right, non-overlapping, greedy matchers over the
character list.  For these particular patterns greedy matching with at
most one backtracking step (dropping the last optional group when the
closing word boundary fails, which then lands on whitespace) coincides
with Python's regex engine.  Python's list(set(...)) deduplication at
line 142 iterates the set in an order that depends on the interpreter's
per-process string-hash seed, so the extractor is embedded with that
enumeration as an explicit parameter: any duplicate-free,
membership-preserving function on lists is a possible behaviour of
list(set(...)) under some interpreter state. -/

/-- Parser for one capitalized word, the regex piece [A-Z][a-z]+
matched greedily: returns the word and the rest. -/
def parseCapWord : List Char → Option (List Char × List Char)
  | [] => none
  | c :: rest =>
    if c.isUpper then
      match rest.span (fun d => d.isLower) with
      | (lowers, rest') => if lowers.isEmpty then none else some (c :: lowers, rest')
    else none

/-- Parser for one whitespace run followed by a capitalized word, the
optional group backslash-s+ [A-Z][a-z]+. -/
def parseSpCapWord (s : List Char) : Option (List Char × List Char) :=
  match s.span isSpaceChar with
  | (sp, s') =>
    if sp.isEmpty then none
    else
      match parseCapWord s' with
      | some (w, rest) => some (sp ++ w, rest)
      | none => none

/-- Greedy parse of at most k optional space-word groups, kept as a
list so the last group can be dropped on a failed closing boundary. -/
def parseExtList : Nat → List Char → (List (List Char) × List Char)
  | 0, s => ([], s)
  | k + 1, s =>
    match parseSpCapWord s with
    | some (e, rest) =>
      match parseExtList k rest with
      | (es, rest') => (e :: es, rest')
    | none => ([], s)

/-- Attempted match of the capitalized-phrase pattern
[A-Z][a-z]+(?:backslash-s+[A-Z][a-z]+){0,3} with a closing word
boundary, at the current position: greedy, with the single effective
backtrack of dropping the last group (its place is whitespace, which
restores the boundary). -/
def tryMatchCap (s : List Char) : Option (List Char × List Char) :=
  match parseCapWord s with
  | none => none
  | some (w, rest0) =>
    match parseExtList 3 rest0 with
    | (es, rest1) =>
      if boundaryOkAfter rest1 then some (w ++ es.join, rest1)
      else if es.isEmpty then none
      else some (w ++ es.dropLast.join, es.getLastD [] ++ rest1)

/-- Attempted match of the single-word pattern [A-Z][a-z]{3,} with a
closing word boundary. -/
def tryMatchWord : List Char → Option (List Char × List Char)
  | [] => none
  | c :: rest =>
    if c.isUpper then
      match rest.span (fun d => d.isLower) with
      | (lowers, rest') =>
        if lowers.length ≥ 3 && boundaryOkAfter rest' then some (c :: lowers, rest')
        else none
    else none

/-- Driver of re.findall for the word-boundary-opened patterns above:
scan left to right, only try at positions preceded by a non-word
character, resume after each match (every match ends in a word
character, so the tracked previous-is-word flag becomes true). -/
def findallWith (tm : List Char → Option (List Char × List Char)) :
    Nat → Bool → List Char → List (List Char)
  | 0, _, _ => []
  | _ + 1, _, [] => []
  | fuel + 1, prevw, c :: rest =>
    if prevw then findallWith tm fuel (isWordChar c) rest
    else
      match tm (c :: rest) with
      | some (m, rest') => m :: findallWith tm fuel true rest'
      | none => findallWith tm fuel (isWordChar c) rest

/-- Case-insensitive match of a literal pattern, returning the rest. -/
def matchLitCI : List Char → List Char → Option (List Char)
  | [], s => some s
  | _ :: _, [] => none
  | p :: ps, c :: cs => if p.toLower == c.toLower then matchLitCI ps cs else none

/-- Parser for one run of word characters, the regex piece
backslash-w+ matched greedily. -/
def parseWordChars (s : List Char) : Option (List Char × List Char) :=
  match s.span isWordChar with
  | (w, rest) => if w.isEmpty then none else some (w, rest)

/-- Parser for one whitespace run followed by a word-character run. -/
def parseSpWord (s : List Char) : Option (List Char × List Char) :=
  match s.span isSpaceChar with
  | (sp, s') =>
    if sp.isEmpty then none
    else
      match parseWordChars s' with
      | some (w, rest) => some (sp ++ w, rest)
      | none => none

/-- Greedy parse of the capture group backslash-w+(backslash-s+
backslash-w+){0,2}: one to three words. -/
def parseCapture (s : List Char) : Option (List Char × List Char) :=
  match parseWordChars s with
  | none => none
  | some (w, rest) =>
    match parseSpWord rest with
    | none => some (w, rest)
    | some (e1, rest1) =>
      match parseSpWord rest1 with
      | none => some (w ++ e1, rest1)
      | some (e2, rest2) => some (w ++ e1 ++ e2, rest2)

/-- Attempted match of the marker pattern define[sd]? backslash-s+
(capture), case-insensitively, with the regex backtracking of the
optional [sd] when no whitespace follows it. -/
def tryDefineMarker (s : List Char) : Option (List Char × List Char) :=
  match matchLitCI "define".toList s with
  | none => none
  | some rest =>
    match rest with
    | [] => none
    | c :: cs =>
      if (c.toLower == 's' || c.toLower == 'd') &&
          (match cs with | d :: _ => isSpaceChar d | [] => false) then
        match cs.span isSpaceChar with
        | (_, afterSp) => parseCapture afterSp
      else if isSpaceChar c then
        match (c :: cs).span isSpaceChar with
        | (_, afterSp) => parseCapture afterSp
      else none

/-- Attempted match of a plain literal marker followed by backslash-s+
and the capture group, case-insensitively. -/
def tryLitMarker (lit : List Char) (s : List Char) : Option (List Char × List Char) :=
  match matchLitCI lit s with
  | none => none
  | some rest =>
    match rest.span isSpaceChar with
    | (sp, afterSp) => if sp.isEmpty then none else parseCapture afterSp

/-- Driver of re.findall for the marker patterns, which have no opening
word boundary: try every position, resume after each full match. -/
def findallMarker (tm : List Char → Option (List Char × List Char)) :
    Nat → List Char → List (List Char)
  | 0, _ => []
  | _ + 1, [] => []
  | fuel + 1, c :: rest =>
    match tm (c :: rest) with
    | some (cap, rest') => cap :: findallMarker tm fuel rest'
    | none => findallMarker tm fuel rest

/-- Insertion-ordered frequency count of the capitalized words found by
the third scan, Python's dict-based counting. -/
def wordFreq (ws : List (List Char)) : List (List Char × Nat) :=
  ws.foldl
    (fun acc w =>
      if acc.any (fun p => p.1 == w) then
        acc.map (fun p => if p.1 == w then (p.1, p.2 + 1) else p)
      else acc ++ [(w, 1)])
    []

/-- Stable descending sort by count: each item is inserted behind every
earlier item of greater-or-equal count, reproducing Python's stable
sorted(..., reverse=True). -/
def insertDesc (p : List Char × Nat) : List (List Char × Nat) → List (List Char × Nat)
  | [] => [p]
  | q :: rest => if q.2 ≥ p.2 then q :: insertDesc p rest else p :: q :: rest

/-- Frequency table of method 3's words sorted stably by descending
count. -/
def sortedFreq (ws : List (List Char)) : List (List Char × Nat) :=
  (wordFreq ws).foldl (fun acc p => insertDesc p acc) []

/-- Python str.strip on a character list (whitespace at both ends). -/
def stripChars (s : List Char) : List Char :=
  ((s.dropWhile isSpaceChar).reverse.dropWhile isSpaceChar).reverse

/-- Valid behaviour of Python's list(set(l)) under some interpreter
state: a duplicate-free list with exactly the members of l.  The order
among those members is the set's iteration order, which CPython derives
from its per-process string-hash seed. -/
def isSetEnum (f : List (List Char) → List (List Char)) : Prop :=
  ∀ l, (f l).Nodup ∧ ∀ x, x ∈ f l ↔ x ∈ l

/-- One possible set-enumeration order: deduplication keeping first
occurrences. -/
def dedupKeepFirst (l : List (List Char)) : List (List Char) :=
  l.foldl (fun acc x => if acc.contains x then acc else acc ++ [x]) []

/-- Another possible set-enumeration order: the reversal of the
first-occurrence one (a different hash seed can reorder the set's
buckets arbitrarily). -/
def dedupRev (l : List (List Char)) : List (List Char) :=
  (dedupKeepFirst l).reverse

/-- Cleaned concept occurrences of extract_key_concepts
(question_generator.py lines 101-142, before the set-based dedup):
capitalized phrases, marker-phrase captures and the ten most frequent
capitalized words, stripped and filtered to length > 3. -/
def cleanedConcepts (t : List Char) : List (List Char) :=
  let m1 := findallWith tryMatchCap (t.length + 1) false t
  let m2 :=
    findallMarker tryDefineMarker (t.length + 1) t ++
    findallMarker (tryLitMarker "concept of".toList) (t.length + 1) t ++
    findallMarker (tryLitMarker "called".toList) (t.length + 1) t ++
    findallMarker (tryLitMarker "known as".toList) (t.length + 1) t ++
    findallMarker (tryLitMarker "refers to".toList) (t.length + 1) t ++
    findallMarker (tryLitMarker "meaning of".toList) (t.length + 1) t
  let m3 := ((sortedFreq (findallWith tryMatchWord (t.length + 1) false t)).take 10).map
    (fun p => p.1)
  ((m1 ++ m2 ++ m3).map stripChars).filter (fun c => c.length > 3)

/-- Embedding of extract_key_concepts (question_generator.py lines
101-145) relative to an interpreter set-enumeration: the cleaned
concepts are deduplicated by list(set(...)) in the enumeration's order
and truncated to 15. -/
def extract_key_concepts_with (setEnum : List (List Char) → List (List Char))
    (t : List Char) : List (List Char) :=
  (setEnum (cleanedConcepts t)).take 15

/-! ## database.py and app.py : querying, replace and remove

The current paper (the session JSON file) is passed and returned
explicitly; the questions table is the pool parameter.  Python's
truthiness tests on the optional filters of get_questions_by_filters
(an if on the value itself) skip a filter when it is None, an empty
string, or zero. -/

/-- Errors the app layer signals on the replace and remove routes
(spec section 7): NotFoundError and NoAlternativeError. -/
inductive AppErr
  | notFound | noAlternative
deriving DecidableEq

/-- Python truthiness of an optional string filter argument. -/
def truthyS : Option String → Bool
  | none => false
  | some s => !(s == "")

/-- Python truthiness of an optional integer filter argument. -/
def truthyI : Option Int → Bool
  | none => false
  | some m => !(m == 0)

/-- Embedding of get_questions_by_filters (database.py lines 98-129):
each filter narrows the result only when its argument is truthy. -/
def get_questions_by_filters (pool : List Question)
    (unit bloom_level difficulty : Option String) (marks : Option Int) :
    List Question :=
  pool.filter (fun q =>
    (if truthyS unit then q.unit == unit.getD "" else true) &&
    (if truthyS bloom_level then q.bloom_level == bloom_level.getD "" else true) &&
    (if truthyS difficulty then q.difficulty == difficulty.getD "" else true) &&
    (if truthyI marks then q.marks == marks.getD 0 else true))

/-- Replacement of the first entry carrying the given id, the
enumerate-assign-break loop of replace_question (app.py lines 242-245). -/
def replaceFirst : List Question → Nat → Question → List Question
  | [], _, _ => []
  | q :: rest, qid, r => if q.id == qid then r :: rest else q :: replaceFirst rest qid r

/-- Embedding of replace_question (app.py lines 208-251): find the
question by id (else NotFoundError), query alternatives with the same
unit, bloom level and marks, drop those already on the paper (none left
gives NoAlternativeError), and substitute the first alternative at the
found position. -/
def replace_question (pool paper : List Question) (question_id : Nat) :
    Except AppErr (List Question) :=
  match paper.find? (fun q => q.id == question_id) with
  | none => .error .notFound
  | some question_to_replace =>
    let alternatives := get_questions_by_filters pool
      (some question_to_replace.unit) (some question_to_replace.bloom_level)
      none (some question_to_replace.marks)
    let selected_ids := paper.map (fun q => q.id)
    match alternatives.filter (fun q => !(selected_ids.contains q.id)) with
    | [] => .error .noAlternative
    | replacement :: _ => .ok (replaceFirst paper question_id replacement)

/-- Embedding of remove_question (app.py lines 254-269): filter the
paper by id and report success, whether or not the id was present. -/
def remove_question (paper : List Question) (question_id : Nat) :
    Except AppErr (List Question) :=
  .ok (paper.filter (fun q => !(q.id == question_id)))

/-- Sample questions used by concrete witnesses and counterexamples. -/
def q1 : Question := ⟨1, "U1", "What is a stack?", 5, "Understand", "Easy"⟩

/-- Second sample question. -/
def q2 : Question := ⟨2, "U1", "Explain heaps.", 5, "Understand", "Easy"⟩

/-- Third sample question. -/
def q3 : Question := ⟨3, "U2", "Define trees.", 5, "Remember", "Easy"⟩

/-- Sample question with zero marks, on which the marks filter of
get_questions_by_filters is skipped by truthiness. -/
def q4 : Question := ⟨4, "U3", "Old question.", 0, "Remember", "Easy"⟩

/-- Sample alternative sharing unit and bloom level with q4 but not its
marks. -/
def q5 : Question := ⟨5, "U3", "New question.", 5, "Remember", "Easy"⟩

/-- Sample question with ordinary positive marks. -/
def q6 : Question := ⟨6, "U3", "Old question.", 5, "Remember", "Easy"⟩

/-- Sample alternative sharing unit, bloom level and marks with q6. -/
def q7 : Question := ⟨7, "U3", "New question.", 5, "Remember", "Medium"⟩

end BloomsBot

namespace BloomsBot

/-- Decomposition of pickMax: the chosen element splits the scanned list
into a strict-smaller prefix and a no-greater suffix, which is exactly
the first-maximum behaviour of Python max over an ordered dict. -/
lemma pickMax_split (f : String → Nat) :
    ∀ (rest : List String) (best : String),
    ∃ l₁ l₂, best :: rest = l₁ ++ pickMax f best rest :: l₂ ∧
      (∀ x ∈ l₁, f x < f (pickMax f best rest)) ∧
      (∀ x ∈ l₂, f x ≤ f (pickMax f best rest)) := by
  intro rest
  induction rest with
  | nil =>
    intro best
    exact ⟨[], [], rfl, by simp, by simp⟩
  | cons a rs ih =>
    intro best
    by_cases h : f a > f best
    · obtain ⟨l₁, l₂, heq, hlt, hle⟩ := ih a
      have hres : pickMax f best (a :: rs) = pickMax f a rs := by
        simp [pickMax, h]
      have hfa : f a ≤ f (pickMax f a rs) := by
        cases l₁ with
        | nil =>
          simp only [List.nil_append, List.cons.injEq] at heq
          rw [← heq.1]
        | cons b l₁' =>
          simp only [List.cons_append, List.cons.injEq] at heq
          have hb := hlt b (by simp)
          rw [← heq.1] at hb
          exact le_of_lt hb
      refine ⟨best :: l₁, l₂, ?_, ?_, ?_⟩
      · rw [hres, List.cons_append, ← heq]
      · intro x hx
        rw [hres]
        rcases List.mem_cons.mp hx with hx | hx
        · exact hx ▸ lt_of_lt_of_le h hfa
        · exact hlt x hx
      · intro x hx
        rw [hres]
        exact hle x hx
    · obtain ⟨l₁, l₂, heq, hlt, hle⟩ := ih best
      have hres : pickMax f best (a :: rs) = pickMax f best rs := by
        simp [pickMax, h]
      cases l₁ with
      | nil =>
        simp only [List.nil_append, List.cons.injEq] at heq
        refine ⟨[], a :: rs, ?_, by simp, ?_⟩
        · rw [hres, List.nil_append, ← heq.1]
        · intro x hx
          rw [hres]
          rcases List.mem_cons.mp hx with hx | hx
          · subst hx
            rw [← heq.1]
            exact le_of_not_lt h
          · exact hle x (heq.2 ▸ hx)
      | cons b l₁' =>
        simp only [List.cons_append, List.cons.injEq] at heq
        have hbest : f best < f (pickMax f best rs) := by
          have hb := hlt b (by simp)
          rw [← heq.1] at hb
          exact hb
        refine ⟨best :: a :: l₁', l₂, ?_, ?_, ?_⟩
        · rw [hres]
          simp only [List.cons_append, List.cons.injEq, true_and]
          exact heq.2
        · intro x hx
          rw [hres]
          rcases List.mem_cons.mp hx with hx | hx
          · exact hx ▸ hbest
          · rcases List.mem_cons.mp hx with hx | hx
            · exact hx ▸ lt_of_le_of_lt (le_of_not_lt h) hbest
            · exact hlt x (by simp [hx])
        · intro x hx
          rw [hres]
          exact hle x hx

set_option maxHeartbeats 1000000 in
/-- C6: on any text where at least one Bloom keyword matches, the
classifier returns a level whose whole-word keyword count is maximal,
and every level strictly earlier in the fixed order Remember,
Understand, Apply, Analyze, Evaluate, Create has a strictly smaller
count (so ties break to the first level in that order); in particular a
text with exactly one Remember keyword and one Understand keyword
classifies as Remember. -/
theorem bloom_level_first_max (t : List Char)
    (h : ∃ l ∈ bloomOrderL, 0 < bloom_score t l) :
    (∃ l₁ l₂, bloomOrderL = l₁ ++ determine_bloom_level t :: l₂ ∧
      (∀ x ∈ l₁, bloom_score t x < bloom_score t (determine_bloom_level t)) ∧
      (∀ x ∈ l₂, bloom_score t x ≤ bloom_score t (determine_bloom_level t))) ∧
    determine_bloom_level ("define and explain".toList) = "Remember" := by
  have hall : (bloomOrderL.all fun l => bloom_score t l == 0) = false := by
    rw [Bool.eq_false_iff]
    intro hc
    obtain ⟨l, hl, hpos⟩ := h
    have hz := List.all_eq_true.mp hc l hl
    simp only [beq_iff_eq] at hz
    omega
  have hdet : determine_bloom_level t =
      pickMax (bloom_score t) "Remember"
        ["Understand", "Apply", "Analyze", "Evaluate", "Create"] := by
    rw [determine_bloom_level, if_neg]
    simp [hall]
  refine ⟨?_, by decide⟩
  rw [hdet]
  exact pickMax_split (bloom_score t)
    ["Understand", "Apply", "Analyze", "Evaluate", "Create"] "Remember"

set_option maxHeartbeats 1000000 in
/-- Witness for bloom_level_first_max at the text "define and explain",
which has one Remember keyword and one Understand keyword. -/
theorem bloom_level_first_max_witness :
    (∃ l ∈ bloomOrderL, 0 < bloom_score ("define and explain".toList) l) ∧
    ((∃ l₁ l₂, bloomOrderL = l₁ ++ determine_bloom_level ("define and explain".toList) :: l₂ ∧
      (∀ x ∈ l₁, bloom_score ("define and explain".toList) x <
        bloom_score ("define and explain".toList) (determine_bloom_level ("define and explain".toList))) ∧
      (∀ x ∈ l₂, bloom_score ("define and explain".toList) x ≤
        bloom_score ("define and explain".toList) (determine_bloom_level ("define and explain".toList)))) ∧
    determine_bloom_level ("define and explain".toList) = "Remember") :=
  ⟨by decide, bloom_level_first_max ("define and explain".toList) (by decide)⟩

set_option maxHeartbeats 1000000 in
/-- C7: for every Bloom level and integer marks, difficulty follows
combined = 0.6 x bloom weight (Remember=1 .. Create=6) + 0.4 x marks tier
(≤2 gives 1, ≤5 gives 2, else 3), thresholded as combined ≤ 2.5 Easy,
≤ 4.5 Medium, else Hard; in particular (Remember, 1) is Easy, (Create, 10)
is Hard and (Apply, 5) is Medium. -/
theorem difficulty_matches_spec (b : BloomLevel) (m : Int) :
    determine_difficulty (bloomName b) m = difficulty_spec b m ∧
    determine_difficulty "Remember" 1 = "Easy" ∧
    determine_difficulty "Create" 10 = "Hard" ∧
    determine_difficulty "Apply" 5 = "Medium" := by
  refine ⟨?_, ?_, ?_, ?_⟩
  case refine_2 =>
    have h : lookupD bloom_difficulty "Remember" = some 1 := by
      simp [lookupD, bloom_difficulty, List.find?]
    norm_num [determine_difficulty, h]
  case refine_3 =>
    have h : lookupD bloom_difficulty "Create" = some 6 := by
      simp [lookupD, bloom_difficulty, List.find?]
    norm_num [determine_difficulty, h]
  case refine_4 =>
    have h : lookupD bloom_difficulty "Apply" = some 3 := by
      simp [lookupD, bloom_difficulty, List.find?]
    norm_num [determine_difficulty, h]
  cases b
  case Remember =>
    have h : lookupD bloom_difficulty "Remember" = some 1 := by
      simp [lookupD, bloom_difficulty, List.find?]
    by_cases h2 : m ≤ 2 <;> by_cases h5 : m ≤ 5 <;>
      first
        | omega
        | norm_num [determine_difficulty, difficulty_spec, bloomName,
            bloom_weight_spec, marks_tier_spec, h, h2, h5]
  case Understand =>
    have h : lookupD bloom_difficulty "Understand" = some 2 := by
      simp [lookupD, bloom_difficulty, List.find?]
    by_cases h2 : m ≤ 2 <;> by_cases h5 : m ≤ 5 <;>
      first
        | omega
        | norm_num [determine_difficulty, difficulty_spec, bloomName,
            bloom_weight_spec, marks_tier_spec, h, h2, h5]
  case Apply =>
    have h : lookupD bloom_difficulty "Apply" = some 3 := by
      simp [lookupD, bloom_difficulty, List.find?]
    by_cases h2 : m ≤ 2 <;> by_cases h5 : m ≤ 5 <;>
      first
        | omega
        | norm_num [determine_difficulty, difficulty_spec, bloomName,
            bloom_weight_spec, marks_tier_spec, h, h2, h5]
  case Analyze =>
    have h : lookupD bloom_difficulty "Analyze" = some 4 := by
      simp [lookupD, bloom_difficulty, List.find?]
    by_cases h2 : m ≤ 2 <;> by_cases h5 : m ≤ 5 <;>
      first
        | omega
        | norm_num [determine_difficulty, difficulty_spec, bloomName,
            bloom_weight_spec, marks_tier_spec, h, h2, h5]
  case Evaluate =>
    have h : lookupD bloom_difficulty "Evaluate" = some 5 := by
      simp [lookupD, bloom_difficulty, List.find?]
    by_cases h2 : m ≤ 2 <;> by_cases h5 : m ≤ 5 <;>
      first
        | omega
        | norm_num [determine_difficulty, difficulty_spec, bloomName,
            bloom_weight_spec, marks_tier_spec, h, h2, h5]
  case Create =>
    have h : lookupD bloom_difficulty "Create" = some 6 := by
      simp [lookupD, bloom_difficulty, List.find?]
    by_cases h2 : m ≤ 2 <;> by_cases h5 : m ≤ 5 <;>
      first
        | omega
        | norm_num [determine_difficulty, difficulty_spec, bloomName,
            bloom_weight_spec, marks_tier_spec, h, h2, h5]

end BloomsBot

namespace BloomsBot

/-- With an empty grouped pool the loop selects nothing: the candidate
search comes back empty on its first attempt. -/
lemma gen_loop_nil_selected (num_questions : Int) (fuel : Nat) (s : GenState) :
    (gen_loop [] num_questions fuel s).selected = s.selected := by
  cases fuel with
  | zero => rfl
  | succ n =>
    rw [gen_loop]
    split
    · rfl
    · rfl

/-- C1: the assembler returns the primary strategy's selected list as
the final result exactly when its length reaches max(3, 0.7 x
num_questions); otherwise the result is whatever the relaxed fallback
produces on the (shuffled) full pool.  The shuffled list is constrained
to be a permutation of the pool, which also covers the empty pool, where
the code's early return of no paper coincides with the fallback's
answer on an empty pool. -/
theorem generate_paper_acceptance (pool shuffled : List Question)
    (total_marks num_questions : Int) (ud bd : List (String × Int))
    (hsh : shuffled.Perm pool) :
    generate_paper pool total_marks num_questions ud bd shuffled =
      if ((primary_state pool total_marks num_questions ud bd).selected.length : ℚ) ≥
          max 3 ((num_questions : ℚ) * (7/10)) then
        some (primary_state pool total_marks num_questions ud bd).selected
      else generate_paper_relaxed shuffled total_marks num_questions := by
  by_cases hp : pool.isEmpty
  · have hpool : pool = [] := by
      cases pool with
      | nil => rfl
      | cons a l => simp [List.isEmpty] at hp
    subst hpool
    have hshuf : shuffled = [] := hsh.eq_nil
    subst hshuf
    have hsel : (primary_state [] total_marks num_questions ud bd).selected = [] := by
      rw [primary_state]
      exact gen_loop_nil_selected num_questions 1000 _
    rw [hsel]
    have hthr : ¬ ((([] : List Question).length : ℚ) ≥ max 3 ((num_questions : ℚ) * (7/10))) := by
      simp only [List.length_nil, Int.cast_zero, ge_iff_le, not_le]
      calc (0:ℚ) < 3 := by norm_num
        _ ≤ max 3 ((num_questions : ℚ) * (7/10)) := le_max_left _ _
    rw [if_neg hthr]
    rfl
  · rw [generate_paper, if_neg hp]

/-- Witness for generate_paper_acceptance on a one-question pool. -/
theorem generate_paper_acceptance_witness :
    ([q1].Perm [q1]) ∧
    (generate_paper [q1] 5 1 [("U1", 5)] [("Understand", 100)] [q1] =
      if (((primary_state [q1] 5 1 [("U1", 5)] [("Understand", 100)]).selected.length : ℚ) ≥
          max 3 (((1 : Int) : ℚ) * (7/10))) then
        some (primary_state [q1] 5 1 [("U1", 5)] [("Understand", 100)]).selected
      else generate_paper_relaxed [q1] 5 1) :=
  ⟨List.Perm.refl _,
    generate_paper_acceptance [q1] [q1] 5 1 [("U1", 5)] [("Understand", 100)]
      (List.Perm.refl _)⟩

/-- Extending a budget-sound selection by a candidate whose marks fit
the remaining budget keeps it budget-sound. -/
lemma budget_ok_append (T : Int) (sel : List Question) (c : Question)
    (hb : budget_ok T sel)
    (hc : c.marks ≤ T - ((sel.map (fun q => q.marks)).sum)) :
    budget_ok T (sel ++ [c]) := by
  intro i h
  rw [List.length_append, List.length_singleton] at h
  by_cases hi : i < sel.length
  · have hget : (sel ++ [c]).get ⟨i, by simpa using h⟩ = sel.get ⟨i, hi⟩ :=
      List.get_append i hi
    rw [hget, List.take_append_of_le_length (le_of_lt hi)]
    exact hb i hi
  · have hi' : i = sel.length := by omega
    subst hi'
    have hget : (sel ++ [c]).get ⟨sel.length, by simp⟩ = c := by simp
    rw [hget, List.take_left]
    exact hc

/-- A best pick is one of the scored candidates. -/
lemma pickBest_mem : ∀ (l : List (ℚ × Question)) (p : ℚ × Question),
    pickBest l = some p → p ∈ l := by
  intro l
  induction l with
  | nil => intro p hp; simp [pickBest] at hp
  | cons a rest ih =>
    intro p hp
    rw [pickBest] at hp
    rcases hrec : pickBest rest with _ | b <;> rw [hrec] at hp <;> dsimp only at hp
    · simp at hp
      simp [hp]
    · by_cases hgt : b.1 > a.1
      · rw [if_pos hgt] at hp
        simp at hp
        exact List.mem_cons_of_mem a (hp ▸ ih b hrec)
      · rw [if_neg hgt] at hp
        simp at hp
        simp [hp]

/-- A candidate returned by find_best_candidate has a fresh id and marks
that fit the remaining budget: both facts come from its candidate
filter. -/
lemma find_best_candidate_spec
    (org : List ((String × Int × String) × List Question))
    (sel : List Question) (rem : Int)
    (ud : List (String × Int)) (bt : List (String × ℚ)) (rc : Int)
    (c : Question) (hfb : find_best_candidate org sel rem ud bt rc = some c) :
    c.id ∉ sel.map (fun q => q.id) ∧ c.marks ≤ rem := by
  rw [find_best_candidate] at hfb
  simp only [Option.map_eq_some'] at hfb
  obtain ⟨p, hp, hpc⟩ := hfb
  have hmem := pickBest_mem _ _ hp
  simp only [List.mem_map] at hmem
  obtain ⟨q, hq, hqp⟩ := hmem
  have hqc : q = c := by rw [← hpc, ← hqp]
  subst hqc
  have hfilter := List.of_mem_filter hq
  simp only [Bool.and_eq_true, Bool.not_eq_true'] at hfilter
  constructor
  · have h1 := hfilter.1
    simp at h1
    intro hmem2
    obtain ⟨x, hx, hxe⟩ := List.mem_map.mp hmem2
    exact h1 x hx hxe
  · have h2 := hfilter.2
    simp only [decide_eq_false_iff_not, not_lt] at h2
    exact h2

/-- Main loop invariant: the remaining budget tracks total minus the
selected marks, the selection stays budget-sound and its ids stay
duplicate-free. -/
lemma gen_loop_inv (org : List ((String × Int × String) × List Question))
    (n T : Int) :
    ∀ (fuel : Nat) (s : GenState),
    s.remaining_marks = T - ((s.selected.map (fun q => q.marks)).sum) →
    budget_ok T s.selected →
    ((s.selected.map (fun q => q.id)).Nodup) →
    ((gen_loop org n fuel s).selected.map (fun q => q.id)).Nodup ∧
      budget_ok T (gen_loop org n fuel s).selected := by
  intro fuel
  induction fuel with
  | zero => intro s hrem hb hn; exact ⟨hn, hb⟩
  | succ fuel ih =>
    intro s hrem hb hn
    rw [gen_loop]
    split
    · rcases hfb : find_best_candidate org s.selected s.remaining_marks
        s.unit_distribution s.bloom_targets (n - s.selected.length) with _ | c
      · exact ⟨hn, hb⟩
      · obtain ⟨hid, hmk⟩ := find_best_candidate_spec _ _ _ _ _ _ _ hfb
        apply ih
        · simp only [List.map_append, List.sum_append, List.map_cons, List.map_nil,
            List.sum_cons, List.sum_nil, add_zero]
          omega
        · exact budget_ok_append T s.selected c hb (hrem ▸ hmk)
        · simp only [List.map_append, List.map_cons, List.map_nil]
          rw [List.nodup_append]
          refine ⟨hn, List.nodup_singleton _, ?_⟩
          intro x hx hy
          simp only [List.mem_singleton] at hy
          subst hy
          exact hid hx
    · exact ⟨hn, hb⟩

/-- The relaxed fold only ever appends: its result is the accumulator
followed by a sublist of the scanned questions. -/
lemma relaxed_foldl_ext (T n : Int) :
    ∀ (l : List Question) (accsel : List Question) (t : Int),
    ∃ u, (l.foldl (relaxed_step T n) (accsel, t)).1 = accsel ++ u ∧ u.Sublist l := by
  intro l
  induction l with
  | nil => intro accsel t; exact ⟨[], by simp, List.nil_sublist _⟩
  | cons q rest ih =>
    intro accsel t
    rw [List.foldl_cons]
    rcases hstep : relaxed_step T n (accsel, t) q with ⟨sel', t'⟩
    rw [relaxed_step] at hstep
    split at hstep
    · obtain ⟨u, hu, hsub⟩ := ih accsel t
      rcases hstep with ⟨⟩
      exact ⟨u, hu, hsub.cons q⟩
    · split at hstep
      · rcases hstep with ⟨⟩
        obtain ⟨u, hu, hsub⟩ := ih (accsel ++ [q]) (t + q.marks)
        refine ⟨q :: u, ?_, hsub.cons₂ q⟩
        rw [hu, List.append_assoc]
        rfl
      · rcases hstep with ⟨⟩
        obtain ⟨u, hu, hsub⟩ := ih accsel t
        exact ⟨u, hu, hsub.cons q⟩

/-- The relaxed selection is a sublist of the shuffled pool. -/
lemma relaxed_select_sublist (shuffled : List Question) (T n : Int) :
    (relaxed_select shuffled T n).Sublist shuffled := by
  obtain ⟨u, hu, hsub⟩ := relaxed_foldl_ext T n shuffled [] 0
  rw [relaxed_select, hu]
  simpa using hsub

/-- C2: on a pool with distinct ids, any list the assembler returns has
no duplicate ids (both the primary strategy, through its fresh-id
candidate filter, and the relaxed fallback, whose selection is a
sublist of the shuffled pool), and every question selected by the
primary strategy has marks within the budget remaining at the moment of
its selection. -/
theorem assembler_sound (pool shuffled : List Question) (T n : Int)
    (ud bd : List (String × Int))
    (hpool : (pool.map (fun q => q.id)).Nodup) (hsh : shuffled.Perm pool) :
    (∀ sel, generate_paper pool T n ud bd shuffled = some sel →
       (sel.map (fun q => q.id)).Nodup) ∧
    budget_ok T (primary_state pool T n ud bd).selected := by
  have hinv := gen_loop_inv (organize_questions pool) n T 1000
    { selected := []
      remaining_marks := T
      attempts := 0
      unit_distribution := ud
      bloom_targets := bloom_targets_init bd T
      bloom_distribution := bd }
    (by simp) (by intro i h; simp at h) (by simp)
  refine ⟨?_, hinv.2⟩
  intro sel hsel
  rw [generate_paper] at hsel
  split at hsel
  · exact absurd hsel (by simp)
  · split at hsel
    · rcases hsel with ⟨⟩
      exact hinv.1
    · rw [generate_paper_relaxed] at hsel
      split at hsel
      · rcases hsel with ⟨⟩
        have hsub := (relaxed_select_sublist shuffled T n).map (fun q => q.id)
        have hshn : (shuffled.map (fun q => q.id)).Nodup :=
          ((hsh.map (fun q => q.id)).nodup_iff).mpr hpool
        exact hshn.sublist hsub
      · exact absurd hsel (by simp)

/-- Witness for assembler_sound on a one-question pool. -/
theorem assembler_sound_witness :
    ((([q1].map (fun q => q.id)).Nodup) ∧ [q1].Perm [q1]) ∧
    ((∀ sel, generate_paper [q1] 5 1 [("U1", 5)] [("Understand", 100)] [q1] = some sel →
        (sel.map (fun q => q.id)).Nodup) ∧
      budget_ok 5 (primary_state [q1] 5 1 [("U1", 5)] [("Understand", 100)]).selected) :=
  ⟨⟨by decide, List.Perm.refl _⟩,
    assembler_sound [q1] [q1] 5 1 [("U1", 5)] [("Understand", 100)]
      (by decide) (List.Perm.refl _)⟩

end BloomsBot

namespace BloomsBot

/-- Extending a prefix-sound selection by a candidate that passes the
tolerance test keeps every nonempty prefix within bound. -/
lemma prefix_sums_ok_append (T : Int) (sel : List Question) (c : Question)
    (hp : prefix_sums_ok T sel)
    (hc : (((sel.map (fun q => q.marks)).sum : Int) : ℚ) + (c.marks : ℚ) ≤ (T : ℚ) * (11/10)) :
    prefix_sums_ok T (sel ++ [c]) := by
  intro k hk
  rw [List.length_append, List.length_singleton] at hk
  by_cases hik : k < sel.length
  · rw [List.take_append_of_le_length (by omega)]
    exact hp k hik
  · have hk' : k = sel.length := by omega
    subst hk'
    rw [List.take_of_length_le (by simp), List.map_append, List.sum_append]
    simp only [List.map_cons, List.map_nil, List.sum_cons, List.sum_nil, add_zero]
    push_cast
    push_cast at hc
    exact hc

/-- The relaxed fold preserves prefix-soundness while the running total
tracks the selected marks. -/
lemma relaxed_foldl_prefix (T n : Int) :
    ∀ (l : List Question) (accsel : List Question) (t : Int),
    t = (accsel.map (fun q => q.marks)).sum →
    prefix_sums_ok T accsel →
    prefix_sums_ok T (l.foldl (relaxed_step T n) (accsel, t)).1 := by
  intro l
  induction l with
  | nil => intro accsel t _ hp; exact hp
  | cons q rest ih =>
    intro accsel t ht hp
    rw [List.foldl_cons, relaxed_step]
    split
    · exact ih accsel t ht hp
    · split
      · rename_i hcond
        refine ih (accsel ++ [q]) (t + q.marks) ?_ ?_
        · simp [ht]
        · refine prefix_sums_ok_append T accsel q hp ?_
          rw [← ht]
          push_cast
          push_cast at hcond
          exact hcond
      · exact ih accsel t ht hp

/-- C3: the relaxed fallback only accepts a candidate while the running
total plus its marks stays within 1.1 x total marks, so every nonempty
prefix (in particular the whole returned list) sums to at most 1.1 x
total marks, and it returns its selection exactly when that selection
has at least 3 questions, signalling no paper otherwise. -/
theorem relaxed_fallback_bounds (shuffled : List Question) (T n : Int) :
    (∀ sel, generate_paper_relaxed shuffled T n = some sel →
       3 ≤ sel.length ∧
       ∀ k, k < sel.length →
         ((((sel.take (k+1)).map (fun q => q.marks)).sum : Int) : ℚ) ≤ (T : ℚ) * (11/10)) ∧
    (generate_paper_relaxed shuffled T n = none ↔
      (relaxed_select shuffled T n).length < 3) := by
  constructor
  · intro sel hsel
    rw [generate_paper_relaxed] at hsel
    split at hsel
    · rename_i hlen
      rcases hsel with ⟨⟩
      refine ⟨hlen, ?_⟩
      exact relaxed_foldl_prefix T n shuffled [] 0 (by simp) (by intro k hk; simp at hk)
    · exact absurd hsel (by simp)
  · rw [generate_paper_relaxed]
    split
    · rename_i hlen
      simp only [Option.some_ne_none, false_iff, not_lt]
      omega
    · rename_i hlen
      simp only [true_iff]
      omega

/-- Witness for relaxed_fallback_bounds: three questions of 5 marks
against 15 target marks are all accepted and returned. -/
theorem relaxed_fallback_bounds_witness :
    (generate_paper_relaxed [q1, q2, q3] 15 5 = some [q1, q2, q3]) ∧
    (3 ≤ [q1, q2, q3].length ∧
      ∀ k, k < [q1, q2, q3].length →
        (((([q1, q2, q3].take (k+1)).map (fun q => q.marks)).sum : Int) : ℚ) ≤
          ((15 : Int) : ℚ) * (11/10)) :=
  ⟨by norm_num [generate_paper_relaxed, relaxed_select, relaxed_step, q1, q2, q3],
    (relaxed_fallback_bounds [q1, q2, q3] 15 5).1 [q1, q2, q3]
      (by norm_num [generate_paper_relaxed, relaxed_select, relaxed_step, q1, q2, q3])⟩

/-- The loop adds at most one attempt per unit of fuel. -/
lemma gen_loop_attempts_le (org : List ((String × Int × String) × List Question))
    (n : Int) : ∀ (fuel : Nat) (s : GenState),
    (gen_loop org n fuel s).attempts ≤ s.attempts + fuel := by
  intro fuel
  induction fuel with
  | zero => intro s; exact Nat.le_add_right _ _
  | succ fuel ih =>
    intro s
    rw [gen_loop]
    split
    · split
      · calc (gen_loop org n fuel _).attempts ≤ (s.attempts + 1) + fuel := ih _
          _ = s.attempts + (fuel + 1) := by omega
      · simp only []
        omega
    · omega

/-- C5: the primary greedy loop performs at most 1000 attempts on any
input, and as soon as no candidate qualifies it exits after just that
one further attempt, leaving the rest of the state untouched. -/
theorem assembler_attempt_cap (pool : List Question) (T n : Int)
    (ud bd : List (String × Int))
    (org : List ((String × Int × String) × List Question)) (fuel : Nat) (s : GenState)
    (hcount : (s.selected.length : Int) < n) (hrem : s.remaining_marks > 0)
    (hnone : find_best_candidate org s.selected s.remaining_marks s.unit_distribution
      s.bloom_targets (n - s.selected.length) = none) :
    (primary_state pool T n ud bd).attempts ≤ 1000 ∧
    gen_loop org n (fuel + 1) s = { s with attempts := s.attempts + 1 } := by
  constructor
  · have hle := gen_loop_attempts_le (organize_questions pool) n 1000
      { selected := []
        remaining_marks := T
        attempts := 0
        unit_distribution := ud
        bloom_targets := bloom_targets_init bd T
        bloom_distribution := bd }
    simpa [primary_state] using hle
  · rw [gen_loop, if_pos ⟨hcount, hrem⟩, hnone]

/-- Witness for assembler_attempt_cap: a pool of one question with
num_questions 5; once the question is taken, the next attempt finds no
candidate and the loop stops at attempt 2 of 1000. -/
theorem assembler_attempt_cap_witness :
    ((([q1] : List Question).length : Int) < 5 ∧ ((3 : Int) > 0) ∧
      find_best_candidate (organize_questions [q1]) [q1] 3 [] []
        (5 - ([q1] : List Question).length) = none) ∧
    ((primary_state [q1] 3 5 [] []).attempts ≤ 1000 ∧
      gen_loop (organize_questions [q1]) 5 (998 + 1)
          { selected := [q1]
            remaining_marks := 3
            attempts := 1
            unit_distribution := []
            bloom_targets := []
            bloom_distribution := [] } =
        { selected := [q1]
          remaining_marks := 3
          attempts := 1 + 1
          unit_distribution := []
          bloom_targets := []
          bloom_distribution := [] }) :=
  ⟨⟨by decide, by decide, by decide⟩,
    assembler_attempt_cap [q1] 3 5 [] [] (organize_questions [q1]) 998
      { selected := [q1]
        remaining_marks := 3
        attempts := 1
        unit_distribution := []
        bloom_targets := []
        bloom_distribution := [] }
      (by decide) (by decide) (by decide)⟩

/-- The loop never writes the caller's bloom_distribution map. -/
lemma gen_loop_bloom_distribution (org : List ((String × Int × String) × List Question))
    (n : Int) : ∀ (fuel : Nat) (s : GenState),
    (gen_loop org n fuel s).bloom_distribution = s.bloom_distribution := by
  intro fuel
  induction fuel with
  | zero => intro s; rfl
  | succ fuel ih =>
    intro s
    rw [gen_loop]
    split
    · split
      · rw [ih]
      · rfl
    · rfl

/-- C4 counterexample: a run in which a question whose bloom level is a
key of the caller-supplied bloom_distribution is selected, yet that map
comes out of the assembler unchanged instead of decremented by the
question's marks as the claim states. -/
theorem distribution_maps_counterexample :
    (primary_state [q1] 5 1 [("U1", 5)] [("Understand", 100)]).selected = [q1] ∧
    q1.bloom_level = "Understand" ∧
    memD [("Understand", (100 : Int))] q1.bloom_level = true ∧
    (primary_state [q1] 5 1 [("U1", 5)] [("Understand", 100)]).bloom_distribution =
      [("Understand", 100)] ∧
    (primary_state [q1] 5 1 [("U1", 5)] [("Understand", 100)]).bloom_distribution ≠
      updD [("Understand", 100)] q1.bloom_level (fun v => v - q1.marks) :=
  ⟨by decide, by decide, by decide, by decide, by decide⟩

/-- C4 (amended): on every selection the loop decrements in place the
caller's unit_distribution at the question's unit and the derived
bloom_targets map at its bloom level, each only when the key exists; the
caller-supplied bloom_distribution itself is never modified by the
assembler. -/
theorem distribution_update_amended
    (org : List ((String × Int × String) × List Question))
    (pool : List Question) (T n : Int) (ud bd : List (String × Int))
    (fuel : Nat) (s : GenState) (c : Question)
    (hcount : (s.selected.length : Int) < n) (hrem : s.remaining_marks > 0)
    (hfb : find_best_candidate org s.selected s.remaining_marks s.unit_distribution
      s.bloom_targets (n - s.selected.length) = some c) :
    gen_loop org n (fuel + 1) s =
      gen_loop org n fuel
        { selected := s.selected ++ [c]
          remaining_marks := s.remaining_marks - c.marks
          attempts := s.attempts + 1
          unit_distribution :=
            if memD s.unit_distribution c.unit then
              updD s.unit_distribution c.unit (fun v => v - c.marks)
            else s.unit_distribution
          bloom_targets :=
            if memD s.bloom_targets c.bloom_level then
              updD s.bloom_targets c.bloom_level (fun v => v - (c.marks : ℚ))
            else s.bloom_targets
          bloom_distribution := s.bloom_distribution } ∧
    (primary_state pool T n ud bd).bloom_distribution = bd := by
  constructor
  · rw [gen_loop, if_pos ⟨hcount, hrem⟩, hfb]
  · rw [primary_state, gen_loop_bloom_distribution]

/-- Witness for distribution_update_amended at the first iteration of a
one-question run. -/
theorem distribution_update_amended_witness :
    (((([] : List Question).length : Int) < 1) ∧ ((5 : Int) > 0) ∧
      find_best_candidate (organize_questions [q1]) [] 5 [("U1", 5)]
        (bloom_targets_init [("Understand", 100)] 5)
        (1 - ([] : List Question).length) = some q1) ∧
    (gen_loop (organize_questions [q1]) 1 (999 + 1)
        { selected := []
          remaining_marks := 5
          attempts := 0
          unit_distribution := [("U1", 5)]
          bloom_targets := bloom_targets_init [("Understand", 100)] 5
          bloom_distribution := [("Understand", 100)] } =
      gen_loop (organize_questions [q1]) 1 999
        { selected := ([] : List Question) ++ [q1]
          remaining_marks := 5 - q1.marks
          attempts := 0 + 1
          unit_distribution :=
            if memD [("U1", 5)] q1.unit then
              updD [("U1", 5)] q1.unit (fun v => v - q1.marks)
            else [("U1", 5)]
          bloom_targets :=
            if memD (bloom_targets_init [("Understand", 100)] 5) q1.bloom_level then
              updD (bloom_targets_init [("Understand", 100)] 5) q1.bloom_level
                (fun v => v - (q1.marks : ℚ))
            else bloom_targets_init [("Understand", 100)] 5
          bloom_distribution := [("Understand", 100)] } ∧
      (primary_state [q1] 5 1 [("U1", 5)] [("Understand", 100)]).bloom_distribution =
        [("Understand", 100)]) :=
  ⟨⟨by decide, by decide, by decide⟩,
    distribution_update_amended (organize_questions [q1]) [q1] 5 1 [("U1", 5)]
      [("Understand", 100)] 999
      { selected := []
        remaining_marks := 5
        attempts := 0
        unit_distribution := [("U1", 5)]
        bloom_targets := bloom_targets_init [("Understand", 100)] 5
        bloom_distribution := [("Understand", 100)] } q1
      (by decide) (by decide) (by decide)⟩

end BloomsBot

namespace BloomsBot

/-- Folding the first-occurrence dedup step over any list, starting
from a duplicate-free accumulator, yields a duplicate-free list whose
members are those of the accumulator and the list. -/
lemma dedupKeepFirst_aux :
    ∀ (l acc : List (List Char)), acc.Nodup →
    (l.foldl (fun acc x => if acc.contains x then acc else acc ++ [x]) acc).Nodup ∧
    ∀ x, x ∈ l.foldl (fun acc x => if acc.contains x then acc else acc ++ [x]) acc ↔
      x ∈ acc ∨ x ∈ l := by
  intro l
  induction l with
  | nil => intro acc hn; exact ⟨hn, fun x => by simp⟩
  | cons a rest ih =>
    intro acc hn
    rw [List.foldl_cons]
    by_cases hc : acc.contains a
    · rw [if_pos hc]
      obtain ⟨hnd, hmem⟩ := ih acc hn
      have ha : a ∈ acc := List.elem_iff.mp hc
      refine ⟨hnd, fun x => ?_⟩
      rw [hmem x]
      constructor
      · rintro (h | h)
        · exact Or.inl h
        · exact Or.inr (List.mem_cons_of_mem a h)
      · rintro (h | h)
        · exact Or.inl h
        · rcases List.mem_cons.mp h with h | h
          · exact Or.inl (h ▸ ha)
          · exact Or.inr h
    · rw [if_neg hc]
      have ha : a ∉ acc := fun hmm => hc (List.elem_iff.mpr hmm)
      have hn2 : (acc ++ [a]).Nodup := by
        rw [List.nodup_append]
        refine ⟨hn, List.nodup_singleton _, ?_⟩
        intro x hx hy
        simp only [List.mem_singleton] at hy
        subst hy
        exact ha hx
      obtain ⟨hnd, hmem⟩ := ih (acc ++ [a]) hn2
      refine ⟨hnd, fun x => ?_⟩
      rw [hmem x]
      constructor
      · rintro (h | h)
        · rcases List.mem_append.mp h with h | h
          · exact Or.inl h
          · simp only [List.mem_singleton] at h
            subst h
            exact Or.inr (List.mem_cons_self _ _)
        · exact Or.inr (List.mem_cons_of_mem a h)
      · rintro (h | h)
        · exact Or.inl (List.mem_append_left _ h)
        · rcases List.mem_cons.mp h with h | h
          · exact Or.inl (List.mem_append_right _ (by simp [h]))
          · exact Or.inr h

/-- First-occurrence dedup is a valid behaviour of list(set(...)). -/
lemma dedupKeepFirst_setEnum : isSetEnum dedupKeepFirst := by
  intro l
  obtain ⟨hnd, hmem⟩ := dedupKeepFirst_aux l [] List.nodup_nil
  refine ⟨hnd, fun x => ?_⟩
  rw [dedupKeepFirst, hmem x]
  simp

/-- The reversed enumeration is an equally valid behaviour of
list(set(...)). -/
lemma dedupRev_setEnum : isSetEnum dedupRev := by
  intro l
  obtain ⟨hnd, hmem⟩ := dedupKeepFirst_setEnum l
  refine ⟨by simpa [dedupRev] using hnd, fun x => ?_⟩
  rw [dedupRev, List.mem_reverse]
  exact hmem x

/-- C8 counterexample: two valid set-enumeration orders, both possible
behaviours of list(set(...)) under some interpreter hash seed, make the
extractor return different ordered lists on the same text, so the
output is not independent of interpreter state. -/
theorem extract_concepts_counterexample :
    isSetEnum dedupKeepFirst ∧ isSetEnum dedupRev ∧
    extract_key_concepts_with dedupKeepFirst ("Alpha. Beta.".toList) ≠
      extract_key_concepts_with dedupRev ("Alpha. Beta.".toList) :=
  ⟨dedupKeepFirst_setEnum, dedupRev_setEnum, by decide⟩

/-- C8 (amended): for any fixed set-enumeration order the extractor is
a function of the text alone returning at most 15 pairwise distinct
topics; which topics survive the set dedup is order-independent (the
deduplicated list has exactly the cleaned concepts as members), and
every returned topic is one of the cleaned concept occurrences; only
the order, and through the truncation to 15 possibly the selection,
depend on the interpreter's set-iteration order. -/
theorem extract_concepts_amended (setEnum : List (List Char) → List (List Char))
    (h : isSetEnum setEnum) (t : List Char) :
    (extract_key_concepts_with setEnum t).length ≤ 15 ∧
    (extract_key_concepts_with setEnum t).Nodup ∧
    (∀ x, x ∈ setEnum (cleanedConcepts t) ↔ x ∈ cleanedConcepts t) ∧
    (∀ x, x ∈ extract_key_concepts_with setEnum t → x ∈ cleanedConcepts t) := by
  obtain ⟨hnd, hmem⟩ := h (cleanedConcepts t)
  refine ⟨?_, ?_, hmem, ?_⟩
  · rw [extract_key_concepts_with, List.length_take]
    exact min_le_left _ _
  · rw [extract_key_concepts_with]
    exact hnd.sublist (List.take_sublist _ _)
  · intro x hx
    rw [extract_key_concepts_with] at hx
    exact (hmem x).mp (List.take_subset _ _ hx)

/-- Witness for extract_concepts_amended at the first-occurrence order
on a concrete text; that run also finds the capitalized phrase and the
marker capture of the text. -/
theorem extract_concepts_amended_witness :
    isSetEnum dedupKeepFirst ∧
    ((extract_key_concepts_with dedupKeepFirst
        ("Define Data Structures. Lists are called Linked List here.".toList)).length ≤ 15 ∧
      (extract_key_concepts_with dedupKeepFirst
        ("Define Data Structures. Lists are called Linked List here.".toList)).Nodup ∧
      (∀ x, x ∈ dedupKeepFirst (cleanedConcepts
          ("Define Data Structures. Lists are called Linked List here.".toList)) ↔
        x ∈ cleanedConcepts
          ("Define Data Structures. Lists are called Linked List here.".toList)) ∧
      (∀ x, x ∈ extract_key_concepts_with dedupKeepFirst
          ("Define Data Structures. Lists are called Linked List here.".toList) →
        x ∈ cleanedConcepts
          ("Define Data Structures. Lists are called Linked List here.".toList))) ∧
    ("Data Structures".toList ∈ extract_key_concepts_with dedupKeepFirst
      ("Define Data Structures. Lists are called Linked List here.".toList) ∧
    "Linked List".toList ∈ extract_key_concepts_with dedupKeepFirst
      ("Define Data Structures. Lists are called Linked List here.".toList)) :=
  ⟨dedupKeepFirst_setEnum,
    extract_concepts_amended dedupKeepFirst dedupKeepFirst_setEnum
      ("Define Data Structures. Lists are called Linked List here.".toList),
    by decide⟩

end BloomsBot

namespace BloomsBot

/-- C9 counterexample: removing an id absent from the paper succeeds
and leaves the paper unchanged instead of signalling NotFoundError. -/
theorem remove_absent_id_counterexample :
    ((2 : Nat) ∉ [q1].map (fun q => q.id)) ∧
    remove_question [q1] 2 = .ok [q1] ∧
    remove_question [q1] 2 ≠ .error .notFound := by
  refine ⟨by decide, rfl, ?_⟩
  rw [show remove_question [q1] 2 = Except.ok [q1] from rfl]
  simp

/-- C9 (amended): for every current paper and every question id absent
from it, the remove operation succeeds and returns the paper unchanged;
only the replace operation signals NotFoundError on an absent id. -/
theorem remove_absent_id_amended (paper : List Question) (question_id : Nat)
    (h : question_id ∉ paper.map (fun q => q.id)) :
    remove_question paper question_id = .ok paper := by
  rw [remove_question]
  congr 1
  apply List.filter_eq_self.mpr
  intro q hq
  simp only [Bool.not_eq_true', beq_eq_false_iff_ne, ne_eq]
  intro he
  exact h (he ▸ List.mem_map_of_mem (fun q => q.id) hq)

/-- Witness for remove_absent_id_amended on a one-question paper and a
foreign id. -/
theorem remove_absent_id_amended_witness :
    ((2 : Nat) ∉ [q1].map (fun q => q.id)) ∧
    remove_question [q1] 2 = .ok [q1] :=
  ⟨by decide, remove_absent_id_amended [q1] 2 (by decide)⟩

/-- Characterization of replaceFirst at the position located by find?:
the paper splits at the first index holding the id, and exactly that
position receives the replacement. -/
lemma replaceFirst_spec :
    ∀ (paper : List Question) (qid : Nat) (r qr : Question),
    paper.find? (fun q => q.id == qid) = some qr →
    ∃ (i : Nat) (hi : i < paper.length),
      paper.get ⟨i, hi⟩ = qr ∧
      replaceFirst paper qid r = paper.take i ++ r :: paper.drop (i + 1) := by
  intro paper
  induction paper with
  | nil => intro qid r qr h; simp [List.find?] at h
  | cons q rest ih =>
    intro qid r qr h
    by_cases hq : q.id == qid
    · simp only [List.find?, hq] at h
      rcases h with ⟨⟩
      refine ⟨0, by simp, rfl, ?_⟩
      rw [replaceFirst, if_pos hq]
      simp
    · have hq' : (q.id == qid) = false := Bool.eq_false_iff.mpr hq
      simp only [List.find?, hq'] at h
      obtain ⟨i, hi, hget, heq⟩ := ih qid r qr h
      refine ⟨i + 1, by simpa using hi, ?_, ?_⟩
      · simpa using hget
      · rw [replaceFirst, if_neg hq, heq]
        simp [List.take_succ_cons, List.drop_succ_cons]

/-- C10 (amended): when replace succeeds on a question whose unit and
bloom level are nonempty and whose marks are nonzero (so that Python's
truthiness applies all three database filters), the result keeps the
paper's length, substitutes at the replaced position a question with
the same unit, bloom level and marks whose id appears nowhere on the
paper, leaves every other position unchanged (the take/drop frame), and
preserves the paper's total marks. -/
theorem replace_preserves_fields (pool paper : List Question) (question_id : Nat)
    (qr : Question)
    (hfind : paper.find? (fun q => q.id == question_id) = some qr)
    (hu : qr.unit ≠ "") (hb : qr.bloom_level ≠ "") (hm : qr.marks ≠ 0)
    (paper' : List Question)
    (hok : replace_question pool paper question_id = .ok paper') :
    ∃ (i : Nat) (hi : i < paper.length) (r : Question),
      paper.get ⟨i, hi⟩ = qr ∧
      paper' = paper.take i ++ r :: paper.drop (i + 1) ∧
      r.unit = qr.unit ∧ r.bloom_level = qr.bloom_level ∧ r.marks = qr.marks ∧
      r.id ∉ paper.map (fun q => q.id) ∧
      paper'.length = paper.length ∧
      (paper'.map (fun q => q.marks)).sum = (paper.map (fun q => q.marks)).sum := by
  rw [replace_question, hfind] at hok
  dsimp only at hok
  rcases halts : (get_questions_by_filters pool (some qr.unit) (some qr.bloom_level)
      none (some qr.marks)).filter
      (fun q => !((paper.map (fun q => q.id)).contains q.id)) with _ | ⟨r, t⟩
  · rw [halts] at hok
    exact absurd hok (by simp)
  · rw [halts] at hok
    simp only [Except.ok.injEq] at hok
    subst hok
    have hrmem : r ∈ (get_questions_by_filters pool (some qr.unit) (some qr.bloom_level)
        none (some qr.marks)).filter
        (fun q => !((paper.map (fun q => q.id)).contains q.id)) := by
      rw [halts]
      exact List.mem_cons_self r t
    have hid : r.id ∉ paper.map (fun q => q.id) := by
      have hfil := List.of_mem_filter hrmem
      simp at hfil
      intro hmm
      obtain ⟨x, hx, hxe⟩ := List.mem_map.mp hmm
      exact hfil x hx hxe
    have hmem := List.mem_of_mem_filter hrmem
    rw [get_questions_by_filters] at hmem
    have hpred := List.of_mem_filter hmem
    have hu' : truthyS (some qr.unit) = true := by
      simp [truthyS, hu]
    have hb' : truthyS (some qr.bloom_level) = true := by
      simp [truthyS, hb]
    have hm' : truthyI (some qr.marks) = true := by
      simp [truthyI, hm]
    have hd' : truthyS (none : Option String) = false := rfl
    rw [hu', hb', hm', hd'] at hpred
    simp only [if_true, if_false, Option.getD, Bool.and_eq_true, beq_iff_eq] at hpred
    obtain ⟨⟨⟨hunit, hbloom⟩, _⟩, hmarks⟩ := hpred
    obtain ⟨i, hi, hget, heq⟩ := replaceFirst_spec paper question_id r qr hfind
    have hdecomp : paper.take i ++ paper.get ⟨i, hi⟩ :: paper.drop (i + 1) = paper := by
      rw [List.get_cons_drop]
      exact List.take_append_drop i paper
    refine ⟨i, hi, r, hget, heq, hunit, hbloom, hmarks, hid, ?_, ?_⟩
    · rw [heq]
      conv_rhs => rw [← hdecomp]
      simp only [List.length_append, List.length_cons]
    · rw [heq]
      conv_rhs => rw [← hdecomp]
      simp only [List.map_append, List.sum_append, List.map_cons, List.sum_cons]
      rw [hget, hmarks]

/-- C10 counterexample: with a zero-marks question on the paper the
marks filter is skipped (Python truthiness of 0), so the replacement
changes the marks and the paper's total, against the claim's
universally quantified statement. -/
theorem replace_question_counterexample :
    ((4 : Nat) ∈ [q4].map (fun q => q.id)) ∧
    replace_question [q5] [q4] 4 = .ok [q5] ∧
    (([q5].map (fun q => q.marks)).sum ≠ ([q4].map (fun q => q.marks)).sum) :=
  ⟨by decide, rfl, by decide⟩

/-- Witness for replace_preserves_fields: a one-question paper whose
question is replaced by the only matching alternative. -/
theorem replace_preserves_fields_witness :
    (([q6].find? (fun q => q.id == 6) = some q6) ∧ q6.unit ≠ "" ∧
      q6.bloom_level ≠ "" ∧ q6.marks ≠ 0 ∧
      replace_question [q7] [q6] 6 = .ok [q7]) ∧
    (∃ (i : Nat) (hi : i < ([q6] : List Question).length) (r : Question),
      ([q6] : List Question).get ⟨i, hi⟩ = q6 ∧
      [q7] = ([q6] : List Question).take i ++ r :: ([q6] : List Question).drop (i + 1) ∧
      r.unit = q6.unit ∧ r.bloom_level = q6.bloom_level ∧ r.marks = q6.marks ∧
      r.id ∉ ([q6] : List Question).map (fun q => q.id) ∧
      ([q7] : List Question).length = ([q6] : List Question).length ∧
      (([q7] : List Question).map (fun q => q.marks)).sum =
        (([q6] : List Question).map (fun q => q.marks)).sum) :=
  ⟨⟨by decide, by decide, by decide, by decide, rfl⟩,
    replace_preserves_fields [q7] [q6] 6 q6 (by decide) (by decide) (by decide)
      (by decide) [q7] rfl⟩

end BloomsBot
